import Mathlib

/-!
# Verification of the yolo-draw label pipeline

A shallow embedding of the deterministic core of the `yolo-draw` repository:

* `utils/file_utils.py` — reading/writing YOLO label files, moving a
  labelled image into a per-class target directory;
* `models/yolo_label.py` — the in-memory label record (`YoloLabel`);
* `utils/image_utils.py` — bounding-box hit-testing (containment, corner
  proximity, edge proximity);
* `ui/components/image_viewer.py` — the mouse-press dispatch order over the
  three hit tests;
* `ui/components/image_list.py` — filename grouping by `_v` id, version
  extraction, and grouped removal/auto-selection.

Modelling conventions:

* Python floats are modelled by `ℚ`.  Every numeric operation the embedded
  code performs (comparison, `max`/`min` clamping, halving, multiplication by
  the image size) is exact, and the claims under study are about exact value
  preservation, so `ℚ` is a faithful carrier.
* A whitespace-separated token of a text file is modelled by `Tok`:
  `Tok.num q` stands for any token string that Python `float()` parses to the
  value `q` (Python's `repr`/`float` round-trip makes the token's value the
  only observable datum), and `Tok.bad` stands for a token on which
  `float()` raises `ValueError`.  A text file is a list of lines, each line a
  list of tokens.
* Filesystem state is a finite association of path strings to file data;
  `os.makedirs` is the identity (directories are implicit), and copies and
  writes always succeed, as the claims concern the logic around them.
-/

attribute [local semireducible] Rat.mul Rat.inv Rat.add Rat.sub Rat.ofScientific

namespace YoloDraw

/-- A whitespace-free token of a label file: either a token that Python
`float()` parses to the rational value `q`, or one on which `float()`
raises. -/
inductive Tok where
  | num (q : ℚ)
  | bad
deriving DecidableEq, Repr

/-- Python `float(tok)`: succeeds exactly on numeric tokens. -/
def parseTok : Tok → Option ℚ
  | Tok.num q => some q
  | Tok.bad => none

/-- Python `int()` applied to a float value: truncation toward zero. -/
def pyint (q : ℚ) : ℤ :=
  if 0 ≤ q then ⌊q⌋ else ⌈q⌉

/-- The list comprehension `[float(parts[0]), ..., float(parts[4])]` in
`read_label_file`: parses the tokens left to right; the first failure
raises (modelled by `none`). -/
def parseLine : List Tok → Option (List ℚ)
  | [] => some []
  | t :: ts =>
    match parseTok t, parseLine ts with
    | some q, some qs => some (q :: qs)
    | _, _ => none

/-- The line loop of `read_label_file` (file_utils.py lines 79–85): a line
whose field count is not 5 is skipped; a 5-field line is parsed, and a parse
failure raises `ValueError`, which the surrounding `try` catches — the rows
accumulated so far are returned and every later line is dropped. -/
def read_label_lines : List (List Tok) → List (List ℚ)
  | [] => []
  | line :: rest =>
    if line.length = 5 then
      match parseLine line with
      | some row => row :: read_label_lines rest
      | none => []
    else
      read_label_lines rest

/-- One output line of `write_label_file` (file_utils.py line 117):
`f"{int(label[0])} {label[1]} {label[2]} {label[3]} {label[4]}"`. -/
def writeRow (row : List ℚ) : List Tok :=
  [Tok.num ((pyint (row.getD 0 0) : ℤ) : ℚ), Tok.num (row.getD 1 0),
   Tok.num (row.getD 2 0), Tok.num (row.getD 3 0), Tok.num (row.getD 4 0)]

/-- The writing loop of `write_label_file` (file_utils.py lines 114–118):
rows whose length is not 5 are silently not written. -/
def write_label_lines : List (List ℚ) → List (List Tok)
  | [] => []
  | row :: rest =>
    if row.length = 5 then writeRow row :: write_label_lines rest
    else write_label_lines rest

theorem len5_cases {α : Type} {l : List α} (h : l.length = 5) :
    ∃ a b c d e, l = [a, b, c, d, e] := by
  rcases l with _ | ⟨a, l⟩
  · simp at h
  rcases l with _ | ⟨b, l⟩
  · simp at h
  rcases l with _ | ⟨c, l⟩
  · simp at h
  rcases l with _ | ⟨d, l⟩
  · simp at h
  rcases l with _ | ⟨e, l⟩
  · simp at h
  rcases l with _ | ⟨f, l⟩
  · exact ⟨a, b, c, d, e, rfl⟩
  · simp [List.length] at h

theorem pyint_intCast (n : ℤ) : pyint (n : ℚ) = n := by
  unfold pyint
  split <;> simp

/-- C1.  Round-trip of the label file format: writing a list of valid rows
(each of length 5, class id an integer value) with `write_label_file` and
reading the file back with `read_label_file` returns exactly the same rows,
with no numeric change. -/
theorem write_read_roundtrip (labels : List (List ℚ))
    (hlen : ∀ row ∈ labels, row.length = 5)
    (hcls : ∀ row ∈ labels, ∃ n : ℤ, row.getD 0 0 = (n : ℚ)) :
    read_label_lines (write_label_lines labels) = labels := by
  induction labels with
  | nil => rfl
  | cons row rest ih =>
    have h5 : row.length = 5 := hlen row (by simp)
    obtain ⟨n, hn⟩ := hcls row (by simp)
    obtain ⟨a, b, c, d, e, rfl⟩ := len5_cases h5
    have ha : a = (n : ℚ) := by simpa using hn
    subst ha
    have hrest : read_label_lines (write_label_lines rest) = rest :=
      ih (fun r hr => hlen r (by simp [hr])) (fun r hr => hcls r (by simp [hr]))
    simp [write_label_lines, writeRow, read_label_lines, parseLine, parseTok,
      pyint_intCast, hrest]

/-- Witness for C1 at a concrete input. -/
theorem write_read_roundtrip_witness :
    read_label_lines (write_label_lines [[0, 1/2, 1/2, 1/5, 1/5], [3, 1, 0, 1/1000, 1]])
      = [[0, 1/2, 1/2, 1/5, 1/5], [3, 1, 0, 1/1000, 1]] :=
  write_read_roundtrip _ (by decide)
    (by
      intro row hr
      simp only [List.mem_cons, List.not_mem_nil, or_false] at hr
      rcases hr with rfl | rfl
      · exact ⟨0, by norm_num⟩
      · exact ⟨3, by norm_num⟩)

/-- `read_label_file` including the `os.path.exists` guard (file_utils.py
line 67): a missing file (`none`) yields the empty row list. -/
def read_label_file_opt : Option (List (List Tok)) → List (List ℚ)
  | none => []
  | some lines => read_label_lines lines

/-- C6.  Malformed lines (field count ≠ 5) are silently skipped: deleting
such a line from a file does not change the parse result, the parse never
raises, and a missing or empty file yields an empty row set.  The concrete
3-field line `"1 0.5 0.5"` is dropped. -/
theorem malformed_line_skipped :
    (∀ (pre : List (List Tok)) (bad : List Tok) (post : List (List Tok)),
      bad.length ≠ 5 →
        read_label_lines (pre ++ bad :: post) = read_label_lines (pre ++ post))
    ∧ read_label_file_opt none = []
    ∧ read_label_file_opt (some []) = []
    ∧ read_label_lines [[Tok.num 1, Tok.num (1/2), Tok.num (1/2)]] = [] := by
  refine ⟨?_, rfl, rfl, rfl⟩
  intro pre bad post hbad
  induction pre with
  | nil => simp [read_label_lines, hbad]
  | cons l pre ih =>
    by_cases h5 : l.length = 5
    · cases hp : parseLine l with
      | none => simp [read_label_lines, h5, hp]
      | some row => simp [read_label_lines, h5, hp, ih]
    · simp [read_label_lines, h5, ih]

/-- Witness for C6 at a concrete input: dropping the 3-field middle line. -/
theorem malformed_line_skipped_witness :
    read_label_lines
      [[Tok.num 0, Tok.num 1, Tok.num 1, Tok.num 1, Tok.num 1],
       [Tok.num 1, Tok.num (1/2), Tok.num (1/2)],
       [Tok.num 2, Tok.num 1, Tok.num 1, Tok.num 1, Tok.num 1]]
    = read_label_lines
      [[Tok.num 0, Tok.num 1, Tok.num 1, Tok.num 1, Tok.num 1],
       [Tok.num 2, Tok.num 1, Tok.num 1, Tok.num 1, Tok.num 1]] :=
  malformed_line_skipped.1
    [[Tok.num 0, Tok.num 1, Tok.num 1, Tok.num 1, Tok.num 1]]
    [Tok.num 1, Tok.num (1/2), Tok.num (1/2)]
    [[Tok.num 2, Tok.num 1, Tok.num 1, Tok.num 1, Tok.num 1]]
    (by decide)

/-- C10.  A 5-field line with a field on which `float()` raises aborts the
parse: the rows parsed from earlier lines are kept and returned, and every
later line is dropped (the exception is caught, nothing propagates). -/
theorem bad_field_aborts_parse (pre : List (List Tok)) (line : List Tok)
    (post : List (List Tok))
    (hpre : ∀ l ∈ pre, ¬(l.length = 5 ∧ parseLine l = none))
    (hlen : line.length = 5) (hparse : parseLine line = none) :
    read_label_lines (pre ++ line :: post) = read_label_lines pre := by
  induction pre with
  | nil => simp [read_label_lines, hlen, hparse]
  | cons l pre ih =>
    have hl := hpre l (by simp)
    by_cases h5 : l.length = 5
    · cases hp : parseLine l with
      | none => exact absurd ⟨h5, hp⟩ hl
      | some row =>
        simp [read_label_lines, h5, hp, ih (fun x hx => hpre x (by simp [hx]))]
    · simp [read_label_lines, h5, ih (fun x hx => hpre x (by simp [hx]))]

/-- Witness for C10 at a concrete input: one good line, then a line whose
second field does not parse, then another good line — only the first row
survives. -/
theorem bad_field_aborts_parse_witness :
    read_label_lines
      [[Tok.num 1, Tok.num 1, Tok.num 1, Tok.num 1, Tok.num 1],
       [Tok.num 1, Tok.bad, Tok.num 1, Tok.num 1, Tok.num 1],
       [Tok.num 2, Tok.num 2, Tok.num 2, Tok.num 2, Tok.num 2]]
    = read_label_lines [[Tok.num 1, Tok.num 1, Tok.num 1, Tok.num 1, Tok.num 1]] :=
  bad_field_aborts_parse
    [[Tok.num 1, Tok.num 1, Tok.num 1, Tok.num 1, Tok.num 1]]
    [Tok.num 1, Tok.bad, Tok.num 1, Tok.num 1, Tok.num 1]
    [[Tok.num 2, Tok.num 2, Tok.num 2, Tok.num 2, Tok.num 2]]
    (by decide) (by decide) (by decide)

/-! ## The in-memory label record (`models/yolo_label.py`) -/

/-- The `YoloLabel` object state (yolo_label.py lines 13–28). -/
structure YoloLabel where
  image_path : Option String
  label_path : Option String
  labels : List (List ℚ)
  modified : Bool
deriving Repr, DecidableEq

/-- `YoloLabel.add_label` (yolo_label.py lines 88–105): appends
`[float(class_id), center_x, center_y, width, height]` as given — no
clamping — sets the dirty flag, and returns `True`. -/
def YoloLabel.add_label (st : YoloLabel) (class_id : ℤ) (cx cy w h : ℚ) :
    YoloLabel × Bool :=
  ({ st with
      labels := st.labels ++ [[(class_id : ℚ), cx, cy, w, h]]
      modified := true }, true)

/-- `YoloLabel.update_label_coords` (yolo_label.py lines 218–248): on an
in-range index, clamps `cx, cy` to `[0, 1]` and `w, h` to `[0.001, 1]` and
writes them into positions 1–4 of the stored row; out of range is a no-op
returning `False`. -/
def YoloLabel.update_label_coords (st : YoloLabel) (index : ℤ)
    (cx cy w h : ℚ) : YoloLabel × Bool :=
  if 0 ≤ index ∧ index < (st.labels.length : ℤ) then
    let cx2 := max 0 (min 1 cx)
    let cy2 := max 0 (min 1 cy)
    let w2 := max (1/1000) (min 1 w)
    let h2 := max (1/1000) (min 1 h)
    let i := index.toNat
    let row := st.labels.getD i []
    let row2 := (((row.set 1 cx2).set 2 cy2).set 3 w2).set 4 h2
    ({ st with labels := st.labels.set i row2, modified := true }, true)
  else (st, false)

theorem getD_set_self {α : Type} (l : List α) (i : ℕ) (a d : α)
    (hi : i < l.length) : (l.set i a).getD i d = a := by
  rw [List.getD_eq_getElem?_getD, List.getElem?_set_self hi]
  rfl

/-- The row stored at index `i` of a record (`self.labels[i]`). -/
def storedRow (st : YoloLabel) (i : ℕ) : List ℚ :=
  st.labels.getD i []

/-- C2 counterexample: `add(0, 2, 0.5, 0.5, 0.5)` stores `center_x = 2`,
violating the claimed invariant `center_x ≤ 1` — `add_label` performs no
clamping. -/
theorem add_label_stores_unclamped :
    (((YoloLabel.add_label ⟨none, none, [], false⟩ 0 2 (1/2) (1/2) (1/2)).1.labels.getD
        0 []).getD 1 0 = 2)
    ∧ ¬((((YoloLabel.add_label ⟨none, none, [], false⟩ 0 2 (1/2) (1/2) (1/2)).1.labels.getD
        0 []).getD 1 0) ≤ 1) := by
  constructor <;> decide

/-- C2 (amended).  `update_coords` on an in-range index holding a 5-field
row stores clamped values: `0 ≤ cx, cy ≤ 1` and `0.001 ≤ w, h ≤ 1`, for
arbitrary inputs, never raising; `add` appends the given values unchanged
(no clamping). -/
theorem update_coords_clamps (st : YoloLabel) (index : ℤ) (cx cy w h : ℚ)
    (hin : 0 ≤ index ∧ index < (st.labels.length : ℤ))
    (hrow : (storedRow st index.toNat).length = 5) :
    ((0 ≤ (storedRow (st.update_label_coords index cx cy w h).1 index.toNat).getD 1 0
       ∧ (storedRow (st.update_label_coords index cx cy w h).1 index.toNat).getD 1 0 ≤ 1)
     ∧ (0 ≤ (storedRow (st.update_label_coords index cx cy w h).1 index.toNat).getD 2 0
       ∧ (storedRow (st.update_label_coords index cx cy w h).1 index.toNat).getD 2 0 ≤ 1)
     ∧ (1/1000 ≤ (storedRow (st.update_label_coords index cx cy w h).1 index.toNat).getD 3 0
       ∧ (storedRow (st.update_label_coords index cx cy w h).1 index.toNat).getD 3 0 ≤ 1)
     ∧ (1/1000 ≤ (storedRow (st.update_label_coords index cx cy w h).1 index.toNat).getD 4 0
       ∧ (storedRow (st.update_label_coords index cx cy w h).1 index.toNat).getD 4 0 ≤ 1))
    ∧ ∀ (st2 : YoloLabel) (c : ℤ) (a b u v : ℚ),
        (st2.add_label c a b u v).1.labels = st2.labels ++ [[(c : ℚ), a, b, u, v]] := by
  constructor
  · obtain ⟨a0, a1, a2, a3, a4, hget⟩ := len5_cases hrow
    have hi : index.toNat < st.labels.length := by omega
    have hstored : storedRow (st.update_label_coords index cx cy w h).1 index.toNat
        = [a0, max 0 (min 1 cx), max 0 (min 1 cy),
           max (1/1000) (min 1 w), max (1/1000) (min 1 h)] := by
      simp only [YoloLabel.update_label_coords, if_pos hin, storedRow] at hget ⊢
      rw [getD_set_self _ _ _ _ (by simpa using hi), hget]
      rfl
    rw [hstored]
    refine ⟨⟨le_max_left _ _, max_le (by norm_num) (min_le_left _ _)⟩,
      ⟨le_max_left _ _, max_le (by norm_num) (min_le_left _ _)⟩,
      ⟨le_max_left _ _, max_le (by norm_num) (min_le_left _ _)⟩,
      ⟨le_max_left _ _, max_le (by norm_num) (min_le_left _ _)⟩⟩
  · intro st2 c a b u v
    rfl

/-- Witness for C2 (amended) at a concrete input: clamping `(2, -3, 0, 5)`
on row 0 of a one-row record. -/
theorem update_coords_clamps_witness :
    (0 ≤ (storedRow ((YoloLabel.mk none none [[0, 1/2, 1/2, 1/5, 1/5]] false).update_label_coords
        0 2 (-3) 0 5).1 0).getD 1 0)
    ∧ ((storedRow ((YoloLabel.mk none none [[0, 1/2, 1/2, 1/5, 1/5]] false).update_label_coords
        0 2 (-3) 0 5).1 0).getD 4 0 ≤ 1) := by
  have h := (update_coords_clamps ⟨none, none, [[0, 1/2, 1/2, 1/5, 1/5]], false⟩ 0 2 (-3) 0 5
    (by constructor <;> decide) (by decide)).1
  exact ⟨h.1.1, h.2.2.2.2⟩

/-! ## Hit-testing geometry (`utils/image_utils.py`) -/

/-- The denormalization block repeated in every hit-test of image_utils.py:
pixel-space `(x1, y1, x2, y2)` of a row against image size `(W, H)`. -/
def bboxPixel (row : List ℚ) (W H : ℚ) : ℚ × ℚ × ℚ × ℚ :=
  (row.getD 1 0 * W - row.getD 3 0 * W / 2,
   row.getD 2 0 * H - row.getD 4 0 * H / 2,
   row.getD 1 0 * W + row.getD 3 0 * W / 2,
   row.getD 2 0 * H + row.getD 4 0 * H / 2)

/-- One iteration of the containment loop of `get_bbox_at_position`
(image_utils.py lines 371–391): rows of length ≠ 5 are skipped, otherwise
the pointer is tested against `[x1, x2] × [y1, y2]`, boundaries included. -/
def bboxHit (px py W H : ℚ) (row : List ℚ) : Bool :=
  row.length == 5 &&
    (decide ((bboxPixel row W H).1 ≤ px) && decide (px ≤ (bboxPixel row W H).2.2.1) &&
     decide ((bboxPixel row W H).2.1 ≤ py) && decide (py ≤ (bboxPixel row W H).2.2.2))

/-- The `for i, label in enumerate(labels)` loop of `get_bbox_at_position`:
first hit wins. -/
def findHit (px py W H : ℚ) : List (List ℚ) → Option ℕ
  | [] => none
  | row :: rest =>
    if bboxHit px py W H row then some 0
    else (findHit px py W H rest).map (· + 1)

/-- `get_bbox_at_position` (image_utils.py lines 347–393).  `view_size` is a
parameter of the Python function but is never read. -/
def get_bbox_at_position (pos : ℚ × ℚ) (labels : List (List ℚ))
    (image_size view_size : ℚ × ℚ) : Option ℕ :=
  findHit pos.1 pos.2 image_size.1 image_size.2 labels

/-- The corner test for one row, checks in source order 0 = top-left,
1 = top-right, 2 = bottom-right, 3 = bottom-left, radius 15 pixels
(image_utils.py lines 441–456). -/
def cornerOfRow (px py W H : ℚ) (row : List ℚ) : Option ℕ :=
  if row.length = 5 then
    if |px - (bboxPixel row W H).1| ≤ 15 ∧ |py - (bboxPixel row W H).2.1| ≤ 15 then some 0
    else if |px - (bboxPixel row W H).2.2.1| ≤ 15 ∧ |py - (bboxPixel row W H).2.1| ≤ 15 then some 1
    else if |px - (bboxPixel row W H).2.2.1| ≤ 15 ∧ |py - (bboxPixel row W H).2.2.2| ≤ 15 then some 2
    else if |px - (bboxPixel row W H).1| ≤ 15 ∧ |py - (bboxPixel row W H).2.2.2| ≤ 15 then some 3
    else none
  else none

/-- The row loop of `get_bbox_corner_at_position`: first matching row wins. -/
def findCorner (px py W H : ℚ) : List (List ℚ) → Option (ℕ × ℕ)
  | [] => none
  | row :: rest =>
    match cornerOfRow px py W H row with
    | some c => some (0, c)
    | none => (findCorner px py W H rest).map (fun p => (p.1 + 1, p.2))

/-- `get_bbox_corner_at_position` (image_utils.py lines 395–458); the Python
`(None, None)` result is modelled as `none`. -/
def get_bbox_corner_at_position (pos : ℚ × ℚ) (labels : List (List ℚ))
    (image_size view_size : ℚ × ℚ) : Option (ℕ × ℕ) :=
  findCorner pos.1 pos.2 image_size.1 image_size.2 labels

/-- The edge test for one row, checks in source order 0 = top, 1 = right,
2 = bottom, 3 = left, band 10 pixels constrained to the edge's span
(image_utils.py lines 506–522). -/
def edgeOfRow (px py W H : ℚ) (row : List ℚ) : Option ℕ :=
  if row.length = 5 then
    if |py - (bboxPixel row W H).2.1| ≤ 10
        ∧ (bboxPixel row W H).1 ≤ px ∧ px ≤ (bboxPixel row W H).2.2.1 then some 0
    else if |px - (bboxPixel row W H).2.2.1| ≤ 10
        ∧ (bboxPixel row W H).2.1 ≤ py ∧ py ≤ (bboxPixel row W H).2.2.2 then some 1
    else if |py - (bboxPixel row W H).2.2.2| ≤ 10
        ∧ (bboxPixel row W H).1 ≤ px ∧ px ≤ (bboxPixel row W H).2.2.1 then some 2
    else if |px - (bboxPixel row W H).1| ≤ 10
        ∧ (bboxPixel row W H).2.1 ≤ py ∧ py ≤ (bboxPixel row W H).2.2.2 then some 3
    else none
  else none

/-- The row loop of `get_bbox_edge_at_position`: first matching row wins. -/
def findEdge (px py W H : ℚ) : List (List ℚ) → Option (ℕ × ℕ)
  | [] => none
  | row :: rest =>
    match edgeOfRow px py W H row with
    | some e => some (0, e)
    | none => (findEdge px py W H rest).map (fun p => (p.1 + 1, p.2))

/-- `get_bbox_edge_at_position` (image_utils.py lines 460–524). -/
def get_bbox_edge_at_position (pos : ℚ × ℚ) (labels : List (List ℚ))
    (image_size view_size : ℚ × ℚ) : Option (ℕ × ℕ) :=
  findEdge pos.1 pos.2 image_size.1 image_size.2 labels

/-- Outcome of a left-button mouse press over the image. -/
inductive ClickHit where
  | corner (bbox corner : ℕ)
  | edge (bbox edge : ℕ)
  | inside (bbox : ℕ)
  | background
deriving DecidableEq, Repr

/-- The left-button, non-drawing branch of `on_graphics_view_click`
(image_viewer.py lines 1176–1237): corner test first, then edge test, then
containment. -/
def on_click_hit (pos : ℚ × ℚ) (labels : List (List ℚ))
    (image_size view_size : ℚ × ℚ) : ClickHit :=
  match get_bbox_corner_at_position pos labels image_size view_size with
  | some (i, c) => ClickHit.corner i c
  | none =>
    match get_bbox_edge_at_position pos labels image_size view_size with
    | some (i, e) => ClickHit.edge i e
    | none =>
      match get_bbox_at_position pos labels image_size view_size with
      | some i => ClickHit.inside i
      | none => ClickHit.background

theorem findCorner_isSome_of_mem (px py W H : ℚ) {l : List (List ℚ)}
    {row : List ℚ} (hmem : row ∈ l) (hrow : (cornerOfRow px py W H row).isSome) :
    (findCorner px py W H l).isSome := by
  induction l with
  | nil => cases hmem
  | cons r t ih =>
    rcases List.mem_cons.mp hmem with rfl | hmem2
    · cases hc : cornerOfRow px py W H row with
      | none => rw [hc] at hrow; cases hrow
      | some c => simp [findCorner, hc]
    · cases hc : cornerOfRow px py W H r with
      | none => simpa [findCorner, hc] using ih hmem2
      | some c => simp [findCorner, hc]

/-- C4.  Hit-test priority on mouse press: the corner test is consulted
first, then the edge test, then containment.  If the pointer is within the
corner radius of any box, the click resolves to a corner hit — never to a
containment hit on another box. -/
theorem click_priority (pos : ℚ × ℚ) (labels : List (List ℚ))
    (isz vsz : ℚ × ℚ) :
    (∀ i c, get_bbox_corner_at_position pos labels isz vsz = some (i, c) →
      on_click_hit pos labels isz vsz = ClickHit.corner i c)
    ∧ ((∃ row ∈ labels, (cornerOfRow pos.1 pos.2 isz.1 isz.2 row).isSome) →
      ∃ i c, on_click_hit pos labels isz vsz = ClickHit.corner i c)
    ∧ (get_bbox_corner_at_position pos labels isz vsz = none →
      ∀ i e, get_bbox_edge_at_position pos labels isz vsz = some (i, e) →
        on_click_hit pos labels isz vsz = ClickHit.edge i e)
    ∧ (get_bbox_corner_at_position pos labels isz vsz = none →
      get_bbox_edge_at_position pos labels isz vsz = none →
      ∀ i, get_bbox_at_position pos labels isz vsz = some i →
        on_click_hit pos labels isz vsz = ClickHit.inside i) := by
  refine ⟨?_, ?_, ?_, ?_⟩
  · intro i c hc
    simp [on_click_hit, hc]
  · rintro ⟨row, hmem, hrow⟩
    have hsome := findCorner_isSome_of_mem pos.1 pos.2 isz.1 isz.2 hmem hrow
    cases hc : findCorner pos.1 pos.2 isz.1 isz.2 labels with
    | none => rw [hc] at hsome; cases hsome
    | some p =>
      exact ⟨p.1, p.2, by simp [on_click_hit, get_bbox_corner_at_position, hc]⟩
  · intro hc i e he
    simp [on_click_hit, hc, he]
  · intro hc he i hi
    simp [on_click_hit, hc, he, hi]

/-- Witness for C4 at a concrete input: with image size 100 × 100, pointer
(40, 40) is exactly on the top-left corner of box 0 (center (0.5, 0.5),
size 0.2 × 0.2) and strictly inside box 1 (the whole image); the click
resolves to the corner of box 0. -/
theorem click_priority_witness :
    on_click_hit (40, 40) [[0, 1/2, 1/2, 1/5, 1/5], [1, 1/2, 1/2, 1, 1]]
      (100, 100) (800, 600) = ClickHit.corner 0 0 :=
  (click_priority (40, 40) [[0, 1/2, 1/2, 1/5, 1/5], [1, 1/2, 1/2, 1, 1]]
    (100, 100) (800, 600)).1 0 0 (by decide)

/-- The containment hit condition of `get_bbox_at_position`, as a
proposition: the row has 5 fields and the pointer lies within
`[x1, x2] × [y1, y2]`, boundaries included. -/
def inBox (pos image_size : ℚ × ℚ) (row : List ℚ) : Prop :=
  row.length = 5 ∧
    (bboxPixel row image_size.1 image_size.2).1 ≤ pos.1 ∧
    pos.1 ≤ (bboxPixel row image_size.1 image_size.2).2.2.1 ∧
    (bboxPixel row image_size.1 image_size.2).2.1 ≤ pos.2 ∧
    pos.2 ≤ (bboxPixel row image_size.1 image_size.2).2.2.2

theorem bboxHit_iff_inBox (pos isz : ℚ × ℚ) (row : List ℚ) :
    bboxHit pos.1 pos.2 isz.1 isz.2 row = true ↔ inBox pos isz row := by
  simp [bboxHit, inBox, and_assoc]

theorem bboxHit_false_iff (pos isz : ℚ × ℚ) (row : List ℚ) :
    bboxHit pos.1 pos.2 isz.1 isz.2 row = false ↔ ¬ inBox pos isz row := by
  rw [← bboxHit_iff_inBox]
  cases bboxHit pos.1 pos.2 isz.1 isz.2 row <;> simp

theorem findHit_some_iff (px py W H : ℚ) (l : List (List ℚ)) (i : ℕ) :
    findHit px py W H l = some i ↔
      (∃ row, l[i]? = some row ∧ bboxHit px py W H row = true) ∧
      (∀ j row, j < i → l[j]? = some row → bboxHit px py W H row = false) := by
  induction l generalizing i with
  | nil => simp [findHit]
  | cons r t ih =>
    cases hr : bboxHit px py W H r with
    | true =>
      cases i with
      | zero => simp [findHit, hr]
      | succ n =>
        simp only [findHit, hr, if_true]
        constructor
        · intro h
          exact absurd (Option.some.inj h) (by omega)
        · rintro ⟨-, hall⟩
          have h0 := hall 0 r (Nat.succ_pos n) (by simp)
          rw [hr] at h0
          cases h0
    | false =>
      cases i with
      | zero =>
        simp only [findHit, hr, Bool.false_eq_true, if_false]
        constructor
        · intro h
          rcases Option.map_eq_some'.mp h with ⟨m, -, hm⟩
          exact absurd hm (by omega)
        · rintro ⟨⟨row, hrow, hhit⟩, -⟩
          rw [List.getElem?_cons_zero] at hrow
          rw [Option.some.inj hrow] at hr
          rw [hr] at hhit
          cases hhit
      | succ n =>
        simp only [findHit, hr, Bool.false_eq_true, if_false]
        have hmap : (findHit px py W H t).map (· + 1) = some (n + 1) ↔
            findHit px py W H t = some n := by
          cases hf : findHit px py W H t <;> simp [hf]
        rw [hmap, ih n]
        constructor
        · rintro ⟨⟨row, hrow, hhit⟩, hall⟩
          refine ⟨⟨row, by simpa using hrow, hhit⟩, ?_⟩
          intro j row2 hj hrow2
          cases j with
          | zero =>
            rw [List.getElem?_cons_zero] at hrow2
            rw [← Option.some.inj hrow2]
            exact hr
          | succ m =>
            rw [List.getElem?_cons_succ] at hrow2
            exact hall m row2 (by omega) hrow2
        · rintro ⟨⟨row, hrow, hhit⟩, hall⟩
          refine ⟨⟨row, by simpa using hrow, hhit⟩, ?_⟩
          intro j row2 hj hrow2
          exact hall (j + 1) row2 (by omega) (by simpa using hrow2)

theorem findHit_none_iff (px py W H : ℚ) (l : List (List ℚ)) :
    findHit px py W H l = none ↔
      ∀ (i : ℕ) (row : List ℚ), l[i]? = some row → bboxHit px py W H row = false := by
  induction l with
  | nil => simp [findHit]
  | cons r t ih =>
    cases hr : bboxHit px py W H r with
    | true =>
      simp only [findHit, hr, if_true]
      constructor
      · intro h; cases h
      · intro hall
        have h0 := hall 0 r (by simp)
        rw [hr] at h0
        cases h0
    | false =>
      simp only [findHit, hr, Bool.false_eq_true, if_false, Option.map_eq_none']
      rw [ih]
      constructor
      · intro hall i row hrow
        cases i with
        | zero =>
          rw [List.getElem?_cons_zero] at hrow
          rw [← Option.some.inj hrow]
          exact hr
        | succ m =>
          rw [List.getElem?_cons_succ] at hrow
          exact hall m row hrow
      · intro hall i row hrow
        exact hall (i + 1) row (by simpa using hrow)

/-- C5.  `get_bbox_at_position` returns the smallest row index whose
denormalized box contains the pointer (boundary inclusive), `none` when no
row contains it; with overlapping boxes the first in row order wins. -/
theorem get_bbox_first_match (pos : ℚ × ℚ) (labels : List (List ℚ))
    (isz vsz : ℚ × ℚ) :
    (∀ i, get_bbox_at_position pos labels isz vsz = some i ↔
        (∃ row, labels[i]? = some row ∧ inBox pos isz row) ∧
        (∀ j row, j < i → labels[j]? = some row → ¬ inBox pos isz row))
    ∧ (get_bbox_at_position pos labels isz vsz = none ↔
        ∀ (i : ℕ) (row : List ℚ), labels[i]? = some row → ¬ inBox pos isz row) := by
  constructor
  · intro i
    rw [get_bbox_at_position, findHit_some_iff]
    constructor
    · rintro ⟨⟨row, hrow, hhit⟩, hall⟩
      exact ⟨⟨row, hrow, (bboxHit_iff_inBox pos isz row).mp hhit⟩,
        fun j row2 hj hrow2 =>
          (bboxHit_false_iff pos isz row2).mp (hall j row2 hj hrow2)⟩
    · rintro ⟨⟨row, hrow, hin⟩, hall⟩
      exact ⟨⟨row, hrow, (bboxHit_iff_inBox pos isz row).mpr hin⟩,
        fun j row2 hj hrow2 =>
          (bboxHit_false_iff pos isz row2).mpr (hall j row2 hj hrow2)⟩
  · rw [get_bbox_at_position, findHit_none_iff]
    constructor
    · intro hall i row hrow
      exact (bboxHit_false_iff pos isz row).mp (hall i row hrow)
    · intro hall i row hrow
      exact (bboxHit_false_iff pos isz row).mpr (hall i row hrow)

/-- Witness for C5 at a concrete input: two identical full-image boxes both
contain the pointer; the first in row order wins. -/
theorem get_bbox_first_match_witness :
    get_bbox_at_position (50, 50) [[0, 1/2, 1/2, 1, 1], [1, 1/2, 1/2, 1, 1]]
      (100, 100) (800, 600) = some 0 :=
  ((get_bbox_first_match (50, 50) [[0, 1/2, 1/2, 1, 1], [1, 1/2, 1/2, 1, 1]]
      (100, 100) (800, 600)).1 0).mpr
    ⟨⟨[0, 1/2, 1/2, 1, 1], by simp,
      (bboxHit_iff_inBox (50, 50) (100, 100) [0, 1/2, 1/2, 1, 1]).mp (by decide)⟩,
     fun j row hj _ => absurd hj (Nat.not_lt_zero j)⟩

/-! ## Filename grouping and version numbers (`ui/components/image_list.py`)

Filenames are modelled as `List Char`.  `os.path.basename` is applied by the
Python code before any of the string work below; the functions here take the
base filename directly. -/

/-- Whether `pat` is a leading segment of `s`. -/
def leadsWith : List Char → List Char → Bool
  | _, [] => true
  | [], _ :: _ => false
  | a :: s, b :: p => a == b && leadsWith s p

/-- Splits `s` at the first occurrence of `pat`:
`some (before, after)` with the occurrence removed, `none` when `pat` does
not occur.  This is the semantics of Python `s.split(pat)` restricted to the
first two pieces. -/
def splitFirst (pat : List Char) : List Char → Option (List Char × List Char)
  | [] => if leadsWith [] pat then some ([], []) else none
  | c :: t =>
    if leadsWith (c :: t) pat then some ([], (c :: t).drop pat.length)
    else (splitFirst pat t).map (fun p => (c :: p.1, p.2))

/-- Python `pat in s` (substring containment). -/
def hasSub (s pat : List Char) : Bool :=
  (splitFirst pat s).isSome

/-- Python `s.split(pat)[0]`: the text before the first occurrence of
`pat`, the whole string when `pat` does not occur. -/
def beforeFirst (pat s : List Char) : List Char :=
  match splitFirst pat s with
  | some p => p.1
  | none => s

/-- The split pattern `"_v"`. -/
def vChars : List Char := ['_', 'v']

/-- The split pattern `"."`. -/
def dotChars : List Char := ['.']

/-- The value of a decimal digit character, `none` for a non-digit. -/
def digitVal (c : Char) : Option ℕ :=
  if '0' ≤ c ∧ c ≤ '9' then some (c.toNat - '0'.toNat) else none

/-- Digit-run acceptor for Python `int(str)`: digits with single
underscores allowed between digits only.  `flag` records whether the
previous character was a digit. -/
def parseDigitsAux : ℕ → List Char → Bool → Option ℕ
  | acc, [], true => some acc
  | _, [], false => none
  | acc, c :: t, flag =>
    match digitVal c with
    | some d => parseDigitsAux (acc * 10 + d) t true
    | none => if c = '_' ∧ flag then parseDigitsAux acc t false else none

/-- Python `int(str)` on a trimmed token: optional sign then a digit run
(underscore separators between digits allowed); everything else raises
`ValueError`, modelled as `none`. -/
def parsePyInt (s : List Char) : Option ℤ :=
  match s with
  | [] => none
  | c :: t =>
    if c = '-' then (parseDigitsAux 0 t false).map (fun n => -(n : ℤ))
    else if c = '+' then (parseDigitsAux 0 t false).map (fun n => (n : ℤ))
    else (parseDigitsAux 0 (c :: t) false).map (fun n => (n : ℤ))

/-- `ImageListWidget.parse_image_id` (image_list.py lines 332–340): the text
before the first `"_v"`, `None` when the filename has no `"_v"`. -/
def parse_image_id (filename : List Char) : Option (List Char) :=
  if hasSub filename vChars then some (beforeFirst vChars filename) else none

/-- `ImageListWidget.extract_version_number` (image_list.py lines 342–351):
`int(filename.split('_v')[1].split(".")[0])`, with any failure (no `"_v"`,
or `int()` raising) giving `-1`. -/
def extract_version_number (filename : List Char) : ℤ :=
  match splitFirst vChars filename with
  | none => -1
  | some p =>
    match parsePyInt (beforeFirst dotChars (beforeFirst vChars p.2)) with
    | some n => n
    | none => -1

/-- The intra-group sort `img_files.sort(key=extract_version_number)`
(image_list.py line 159): Python's sort is stable, so any stable sort by the
same key is extensionally identical; insertion sort inserting before the
first element of greater-or-equal key is stable. -/
def sortByVersion (files : List (List Char)) : List (List Char) :=
  List.insertionSort
    (fun a b => extract_version_number a ≤ extract_version_number b) files

/-- The `ImageListWidget` state used by grouped removal (image_list.py
lines 29–36). -/
structure ImageList where
  image_files : List (List Char)
  groups : List (List Char × List (List Char))
  current_group_id : Option (List Char)
  current_group_index : ℤ
  current_image_idx : ℤ
deriving Repr, DecidableEq

/-- Appending a file to its id's entry of the insertion-ordered group dict
(`self.image_groups_by_id[img_id].append(img_file)`). -/
def addToGroups : List (List Char × List (List Char)) → List Char → List Char →
    List (List Char × List (List Char))
  | [], k, f => [(k, [f])]
  | (k2, fs) :: rest, k, f =>
    if k2 = k then (k2, fs ++ [f]) :: rest
    else (k2, fs) :: addToGroups rest k f

/-- The grouping loop of `load_images_by_id` (image_list.py lines 149–155):
files whose id is `None` or empty (`if img_id:` truthiness) join no
group. -/
def buildGroups (files : List (List Char)) :
    List (List Char × List (List Char)) :=
  files.foldl
    (fun gs f =>
      match parse_image_id f with
      | some k => if k ≠ [] then addToGroups gs k f else gs
      | none => gs) []

/-- `load_images_by_id` (image_list.py lines 143–172): group by id, sort
each group by version, rebuild `image_files` in group order; the cursor is
as `__init__` leaves it. -/
def load_images_by_id (files : List (List Char)) : ImageList :=
  let gs := (buildGroups files).map (fun q => (q.1, sortByVersion q.2))
  { image_files := (gs.map (fun q => q.2)).flatten
    groups := gs
    current_group_id := none
    current_group_index := -1
    current_image_idx := -1 }

/-- The version-digit segment exactly as claim C7's sentence describes it:
the characters between the first `"_v"` and the next `"."` after it.  This
definition follows the claim's words, for comparison with the code's
`extract_version_number`. -/
def claimVersionSeg (filename : List Char) : Option (List Char) :=
  (splitFirst vChars filename).map (fun p => beforeFirst dotChars p.2)

/-- C7 counterexample, refuting two clauses at concrete inputs.
(1) Version segment: for `"A_v1_v2.jpg"` the characters between the first
`"_v"` and the next `"."` are `"1_v2"`, which does not parse as an integer —
so by the claim the file is treated as lowest and sorted first; the code
instead parses the version from `split('_v')[1]` (cut at the *next* `"_v"`),
obtaining `1`, and sorts `"A_v0.jpg"` (version 0) before it.
(2) Files lacking `"_v"`: the claim says such a file "is left to simple
ungrouped ordering", but `load_images_by_id` (image_list.py lines 150–164)
rebuilds `image_files` exclusively from the group dict, so `"noid.jpg"`
(group key `None`) is dropped from the grouped image list entirely. -/
theorem version_split_counterexample :
    (claimVersionSeg "A_v1_v2.jpg".data = some "1_v2".data
    ∧ parsePyInt "1_v2".data = none
    ∧ extract_version_number "A_v1_v2.jpg".data = 1
    ∧ sortByVersion ["A_v1_v2.jpg".data, "A_v0.jpg".data]
        = ["A_v0.jpg".data, "A_v1_v2.jpg".data])
    ∧ (parse_image_id "noid.jpg".data = none
    ∧ "noid.jpg".data ∉ (load_images_by_id ["noid.jpg".data, "A_v1.jpg".data]).image_files
    ∧ (load_images_by_id ["noid.jpg".data, "A_v1.jpg".data]).image_files
        = ["A_v1.jpg".data]) := by
  refine ⟨⟨by decide, by decide, by decide, by decide⟩,
    by decide, by decide, by decide⟩

theorem hasSub_cons (c : Char) (s pat : List Char) :
    hasSub (c :: s) pat = (leadsWith (c :: s) pat || hasSub s pat) := by
  simp only [hasSub, splitFirst]
  cases h : leadsWith (c :: s) pat
  · cases hs : splitFirst pat s <;> simp [h, hs]
  · simp [h]

theorem splitFirst_vChars_append (g t : List Char)
    (hg : hasSub g vChars = false) :
    splitFirst vChars (g ++ '_' :: 'v' :: t) = some (g, t) := by
  induction g with
  | nil => simp [splitFirst, leadsWith, vChars]
  | cons c g ih =>
    rw [hasSub_cons, Bool.or_eq_false_iff] at hg
    obtain ⟨hlead, hg2⟩ := hg
    have hl : leadsWith (c :: (g ++ '_' :: 'v' :: t)) vChars = false := by
      cases g with
      | nil => simp [leadsWith, vChars]
      | cons d g2 =>
        simp only [leadsWith, vChars, Bool.and_true] at hlead ⊢
        exact hlead
    rw [List.cons_append]
    simp [splitFirst, hl, ih hg2]

theorem beforeFirst_cons (pat : List Char) (c : Char) (t : List Char)
    (h : leadsWith (c :: t) pat = false) :
    beforeFirst pat (c :: t) = c :: beforeFirst pat t := by
  simp only [beforeFirst, splitFirst, h, Bool.false_eq_true, if_false]
  cases hs : splitFirst pat t <;> simp [hs]

theorem beforeFirst_digits (d t : List Char)
    (hd : ∀ c ∈ d, (digitVal c).isSome) :
    beforeFirst dotChars (beforeFirst vChars (d ++ '.' :: t)) = d := by
  induction d with
  | nil =>
    have h1 : leadsWith ('.' :: t) vChars = false := by simp [leadsWith, vChars]
    rw [List.nil_append, beforeFirst_cons vChars '.' t h1]
    simp [beforeFirst, splitFirst, leadsWith, dotChars]
  | cons c d ih =>
    have hc := hd c (by simp)
    have h1 : c ≠ '_' := by
      intro he; rw [he] at hc; exact absurd hc (by decide)
    have h2 : c ≠ '.' := by
      intro he; rw [he] at hc; exact absurd hc (by decide)
    have hl1 : leadsWith (c :: (d ++ '.' :: t)) vChars = false := by
      simp [leadsWith, vChars, h1]
    rw [List.cons_append, beforeFirst_cons vChars c _ hl1]
    have hl2 : leadsWith (c :: beforeFirst vChars (d ++ '.' :: t)) dotChars
        = false := by
      simp [leadsWith, dotChars, h2]
    rw [beforeFirst_cons dotChars c _ hl2,
      ih (fun x hx => hd x (by simp [hx]))]

theorem parseDigitsAux_digits (d : List Char) :
    ∀ (acc : ℕ) (flag : Bool), (∀ c ∈ d, (digitVal c).isSome) →
      (d ≠ [] ∨ flag = true) →
      parseDigitsAux acc d flag
        = some (d.foldl (fun a c => a * 10 + (c.toNat - '0'.toNat)) acc) := by
  induction d with
  | nil =>
    intro acc flag _ hne
    rcases hne with h | h
    · exact absurd rfl h
    · subst h; rfl
  | cons c d ih =>
    intro acc flag hd _
    have hc := hd c (by simp)
    rcases hv : digitVal c with _ | v
    · rw [hv] at hc; cases hc
    · have hval : v = c.toNat - '0'.toNat := by
        unfold digitVal at hv
        split at hv
        · exact (Option.some.inj hv).symm
        · cases hv
      simp only [parseDigitsAux, hv]
      rw [ih (acc * 10 + v) true (fun x hx => hd x (by simp [hx])) (Or.inr rfl),
        hval]
      rfl

/-- The value of a nonempty decimal digit string. -/
def digitsToNat (d : List Char) : ℕ :=
  d.foldl (fun a c => a * 10 + (c.toNat - '0'.toNat)) 0

theorem parsePyInt_digits (d : List Char) (hne : d ≠ [])
    (hd : ∀ c ∈ d, (digitVal c).isSome) :
    parsePyInt d = some ((digitsToNat d : ℕ) : ℤ) := by
  cases d with
  | nil => exact absurd rfl hne
  | cons c t =>
    have hc := hd c (by simp)
    have h1 : c ≠ '-' := by
      intro he; rw [he] at hc; exact absurd hc (by decide)
    have h2 : c ≠ '+' := by
      intro he; rw [he] at hc; exact absurd hc (by decide)
    simp only [parsePyInt, if_neg h1, if_neg h2]
    rw [parseDigitsAux_digits (c :: t) 0 false hd (Or.inl (by simp))]
    rfl

theorem addToGroups_isSome (gs : List (List Char × List (List Char)))
    (k f : List Char)
    (hgs : ∀ q ∈ gs, ∀ x ∈ q.2, (parse_image_id x).isSome)
    (hf : (parse_image_id f).isSome) :
    ∀ q ∈ addToGroups gs k f, ∀ x ∈ q.2, (parse_image_id x).isSome := by
  induction gs with
  | nil =>
    intro q hq x hx
    simp only [addToGroups, List.mem_singleton] at hq
    subst hq
    simp only [List.mem_singleton] at hx
    subst hx
    exact hf
  | cons r rest ih =>
    obtain ⟨k2, fs⟩ := r
    intro q hq x hx
    by_cases hk : k2 = k
    · rw [addToGroups, if_pos hk] at hq
      rcases List.mem_cons.mp hq with rfl | hq2
      · rcases List.mem_append.mp hx with hx1 | hx2
        · exact hgs (k2, fs) (by simp) x hx1
        · simp only [List.mem_singleton] at hx2
          subst hx2
          exact hf
      · exact hgs q (by simp [hq2]) x hx
    · rw [addToGroups, if_neg hk] at hq
      rcases List.mem_cons.mp hq with rfl | hq2
      · exact hgs (k2, fs) (by simp) x hx
      · exact ih (fun r2 hr2 => hgs r2 (by simp [hr2])) q hq2 x hx

theorem buildGroups_isSome (files : List (List Char)) :
    ∀ q ∈ buildGroups files, ∀ x ∈ q.2, (parse_image_id x).isSome := by
  suffices h : ∀ (fl : List (List Char))
      (acc : List (List Char × List (List Char))),
      (∀ q ∈ acc, ∀ x ∈ q.2, (parse_image_id x).isSome) →
      ∀ q ∈ fl.foldl
        (fun gs f =>
          match parse_image_id f with
          | some k => if k ≠ [] then addToGroups gs k f else gs
          | none => gs) acc,
        ∀ x ∈ q.2, (parse_image_id x).isSome by
    exact h files [] (by simp)
  intro fl
  induction fl with
  | nil => intro acc hacc; simpa using hacc
  | cons f rest ih =>
    intro acc hacc
    simp only [List.foldl_cons]
    cases hpi : parse_image_id f with
    | none =>
      simp only [hpi]
      exact ih acc hacc
    | some k =>
      simp only [hpi]
      by_cases hk : k ≠ []
      · rw [if_pos hk]
        exact ih _ (addToGroups_isSome acc k f hacc (by simp [hpi]))
      · rw [if_neg hk]
        exact ih acc hacc

theorem load_images_by_id_drops (files : List (List Char)) (f : List Char)
    (hf : parse_image_id f = none) :
    f ∉ (load_images_by_id files).image_files := by
  intro hmem
  unfold load_images_by_id at hmem
  simp only [List.mem_flatten, List.mem_map] at hmem
  obtain ⟨l, ⟨q2, ⟨q, hq, rfl⟩, rfl⟩, hfl⟩ := hmem
  have hf2 : f ∈ sortByVersion q.2 := hfl
  have hf3 : f ∈ q.2 :=
    (List.perm_insertionSort
      (fun a b => extract_version_number a ≤ extract_version_number b)
      q.2).subset hf2
  have := buildGroups_isSome files q hq f hf3
  rw [hf] at this
  cases this

/-- C7 (amended).  The group key is the prefix before the *first* `"_v"`;
a filename without `"_v"` gets key `None` and version `-1`, and in grouped
mode such a file is excluded from the rebuilt image list entirely (the flat
ungrouped listing handles it only when grouping is off); the version
number is `int(split('_v')[1].split('.')[0])` — the characters after the
first `"_v"` cut at the next `"_v"` or `"."` — in particular for a
well-formed name `<id>_v<digits>.<ext>` it is the digit run's value; an
unparsable version yields the sentinel `-1`, which sorts before any
nonnegative version; within a group files are stably sorted by ascending
version. -/
theorem grouping_version_semantics :
    (∀ s : List Char, hasSub s vChars = false →
      parse_image_id s = none ∧ extract_version_number s = -1)
    ∧ (∀ g t : List Char, hasSub g vChars = false →
      parse_image_id (g ++ '_' :: 'v' :: t) = some g)
    ∧ (∀ g d t : List Char, hasSub g vChars = false → d ≠ [] →
      (∀ c ∈ d, (digitVal c).isSome) →
      extract_version_number (g ++ '_' :: 'v' :: (d ++ '.' :: t))
        = ((digitsToNat d : ℕ) : ℤ))
    ∧ (∀ g t : List Char, hasSub g vChars = false →
      parsePyInt (beforeFirst dotChars (beforeFirst vChars t)) = none →
      extract_version_number (g ++ '_' :: 'v' :: t) = -1)
    ∧ (∀ files : List (List Char),
      (sortByVersion files).Pairwise
        (fun a b => extract_version_number a ≤ extract_version_number b))
    ∧ (∀ (files : List (List Char)) (f : List Char), parse_image_id f = none →
      f ∉ (load_images_by_id files).image_files) := by
  have hsplitnone : ∀ s : List Char, hasSub s vChars = false →
      splitFirst vChars s = none := by
    intro s hs
    unfold hasSub at hs
    cases h : splitFirst vChars s
    · rfl
    · rw [h] at hs; cases hs
  refine ⟨?_, ?_, ?_, ?_, ?_, ?_⟩
  · intro s hs
    constructor
    · simp [parse_image_id, hs]
    · unfold extract_version_number
      rw [hsplitnone s hs]
  · intro g t hg
    have hsplit := splitFirst_vChars_append g t hg
    have hsub : hasSub (g ++ '_' :: 'v' :: t) vChars = true := by
      unfold hasSub; rw [hsplit]; rfl
    simp [parse_image_id, hsub, beforeFirst, hsplit]
  · intro g d t hg hne hd
    simp only [extract_version_number, splitFirst_vChars_append g _ hg,
      beforeFirst_digits d t hd, parsePyInt_digits d hne hd]
  · intro g t hg hnoparse
    simp only [extract_version_number, splitFirst_vChars_append g t hg,
      hnoparse]
  · intro files
    haveI : IsTotal (List Char)
        (fun a b => extract_version_number a ≤ extract_version_number b) :=
      ⟨fun a b => le_total _ _⟩
    haveI : IsTrans (List Char)
        (fun a b => extract_version_number a ≤ extract_version_number b) :=
      ⟨fun _ _ _ hab hbc => le_trans hab hbc⟩
    exact List.sorted_insertionSort _ files
  · exact fun files f hf => load_images_by_id_drops files f hf

/-- Witness for C7 (amended) at concrete inputs: `"IMG001_v12.jpg"` has
group key `"IMG001"` and version `12`; `"noversion.jpg"` has key `None` and
version `-1`; `"plain.png"` (no `"_v"`) does not survive grouped
loading. -/
theorem grouping_version_semantics_witness :
    parse_image_id "IMG001_v12.jpg".data = some "IMG001".data
    ∧ extract_version_number "IMG001_v12.jpg".data = 12
    ∧ parse_image_id "noversion.jpg".data = none
    ∧ "plain.png".data ∉ (load_images_by_id ["plain.png".data]).image_files := by
  refine ⟨?_, ?_, ?_, ?_⟩
  · exact grouping_version_semantics.2.1 "IMG001".data ("12.jpg".data) (by decide)
  · have h := grouping_version_semantics.2.2.1 "IMG001".data "12".data
      "jpg".data (by decide) (by decide) (by decide)
    simpa using h
  · exact (grouping_version_semantics.1 "noversion.jpg".data (by decide)).1
  · exact grouping_version_semantics.2.2.2.2.2 ["plain.png".data]
      "plain.png".data (by decide)

/-! ## Grouped catalog state and removal (`ui/components/image_list.py`)

The widget state relevant to grouped-mode removal: the flat file list, the
insertion-ordered group dict, and the selection cursor.  Only the
`group_by_id = True` branches are modelled — claim C8 is about grouped
mode. -/

/-- Python string `<` (lexicographic by code point), used by
`sorted(dict.keys())`. -/
def strLt : List Char → List Char → Bool
  | [], [] => false
  | [], _ :: _ => true
  | _ :: _, [] => false
  | a :: s, b :: t => if a < b then true else if b < a then false else strLt s t

/-- `sorted(self.image_groups_by_id.keys())`. -/
def sortedKeys (gs : List (List Char × List (List Char))) : List (List Char) :=
  List.insertionSort (fun a b => strLt b a = false) (gs.map (fun q => q.1))

/-- `select_tree_item_by_path` in grouped mode (image_list.py lines
391–416): the tree child for `p` exists exactly when `p`'s id is a group
and `p` one of its files; on success the cursor is updated. -/
def selectByPath (st : ImageList) (p : List Char) : Option ImageList :=
  match parse_image_id p with
  | none => none
  | some gid =>
    match st.groups.lookup gid with
    | none => none
    | some fs =>
      if p ∈ fs then
        some { st with
          current_group_id := some gid
          current_group_index :=
            if gid ∈ sortedKeys st.groups then
              ((sortedKeys st.groups).findIdx (fun x => x == gid) : ℤ)
            else st.current_group_index
          current_image_idx :=
            if p ∈ st.image_files then
              (st.image_files.findIdx (fun x => x == p) : ℤ)
            else st.current_image_idx }
      else none

/-- `select_next_group_first_image` (image_list.py lines 559–602). -/
def select_next_group_first_image (st : ImageList) : ImageList × Bool :=
  let ids := sortedKeys st.groups
  if ids = [] then
    ({ st with
        current_group_id := none
        current_group_index := -1
        current_image_idx := -1 }, false)
  else
    let next_idx : ℕ :=
      if 0 ≤ st.current_group_index then
        if st.current_group_index < (ids.length : ℤ) then
          st.current_group_index.toNat
        else ids.length - 1
      else 0
    let gid := ids.getD next_idx []
    match st.groups.lookup gid with
    | some (f :: _) =>
      if f ∈ st.image_files then
        match selectByPath st f with
        | some st2 =>
          ({ st2 with
              current_image_idx := (st.image_files.findIdx (fun x => x == f) : ℤ)
              current_group_id := some gid
              current_group_index := (next_idx : ℤ) }, true)
        | none => (st, false)
      else (st, false)
    | _ => (st, false)

/-- `select_next_image_after_removal` in grouped mode (image_list.py lines
535–557): reselect within the current group at the clamped in-group index,
falling back to `select_next_group_first_image`. -/
def select_next_image_after_removal (st : ImageList) (inIdx : ℤ) :
    ImageList × Bool :=
  match st.current_group_id with
  | some gid =>
    if gid ≠ [] then
      match st.groups.lookup gid with
      | some remaining =>
        if remaining ≠ [] ∧ 0 ≤ inIdx then
          let nidx := min inIdx.toNat (remaining.length - 1)
          let next := remaining.getD nidx []
          if next ∈ st.image_files then
            match selectByPath st next with
            | some st2 => (st2, true)
            | none => select_next_group_first_image st
          else select_next_group_first_image st
        else select_next_group_first_image st
      | none => select_next_group_first_image st
    else select_next_group_first_image st
  | none => select_next_group_first_image st

/-- `remove_current_image` in grouped mode (image_list.py lines 604–668),
with `p` the path of the currently selected tree child: records the
in-group index, removes `p` from `image_files` and from the current group
(deleting the group and clearing `current_group_id` when it empties), then
auto-selects the next image. -/
def remove_current_image (st : ImageList) (p : List Char) :
    ImageList × Bool :=
  let inIdx : ℤ :=
    match st.current_group_id with
    | some gid =>
      if gid ≠ [] then
        match st.groups.lookup gid with
        | some fs => if p ∈ fs then (fs.findIdx (fun x => x == p) : ℤ) else -1
        | none => -1
      else -1
    | none => -1
  let files2 :=
    if p ∈ st.image_files then st.image_files.erase p else st.image_files
  let gd : List (List Char × List (List Char)) × Option (List Char) :=
    match st.current_group_id with
    | some gid =>
      if gid ≠ [] then
        match st.groups.lookup gid with
        | some fs =>
          if p ∈ fs then
            let fs2 := fs.erase p
            if fs2 = [] then
              (st.groups.filter (fun q => q.1 != gid), none)
            else
              (st.groups.map (fun q => if q.1 = gid then (q.1, fs2) else q),
               some gid)
          else (st.groups, some gid)
        | none => (st.groups, some gid)
      else (st.groups, st.current_group_id)
    | none => (st.groups, none)
  select_next_image_after_removal
    { st with image_files := files2, groups := gd.1, current_group_id := gd.2 }
    inIdx

theorem selectByPath_groups {st : ImageList} {p : List Char}
    {st2 : ImageList} (h : selectByPath st p = some st2) :
    st2.groups = st.groups := by
  unfold selectByPath at h
  cases hpi : parse_image_id p with
  | none => simp only [hpi] at h; cases h
  | some gid =>
    simp only [hpi] at h
    cases hlk : st.groups.lookup gid with
    | none => simp only [hlk] at h; cases h
    | some fs =>
      simp only [hlk] at h
      by_cases hp : p ∈ fs
      · rw [if_pos hp] at h
        rw [← Option.some.inj h]
      · rw [if_neg hp] at h; cases h

theorem select_next_group_first_groups (st : ImageList) :
    (select_next_group_first_image st).1.groups = st.groups := by
  unfold select_next_group_first_image
  dsimp only
  split
  · rfl
  · split
    · rename_i f rest hmatch
      split
      · cases hsel : selectByPath st f with
        | some st2 => simp [hsel, selectByPath_groups hsel]
        | none => simp [hsel]
      · rfl
    · rfl

theorem select_next_after_removal_groups (st : ImageList) (inIdx : ℤ) :
    (select_next_image_after_removal st inIdx).1.groups = st.groups := by
  unfold select_next_image_after_removal
  cases hg : st.current_group_id with
  | none => exact select_next_group_first_groups st
  | some gid =>
    by_cases hne : gid ≠ []
    · cases hlk : st.groups.lookup gid with
      | none =>
        simp only [if_pos hne, hlk]
        exact select_next_group_first_groups st
      | some remaining =>
        by_cases hc : remaining ≠ [] ∧ 0 ≤ inIdx
        · by_cases hmem :
              remaining.getD (min inIdx.toNat (remaining.length - 1)) []
                ∈ st.image_files
          · cases hsel : selectByPath st
                (remaining.getD (min inIdx.toNat (remaining.length - 1)) []) with
            | some st2 =>
              simp only [if_pos hne, hlk, if_pos hc, if_pos hmem, hsel]
              exact selectByPath_groups hsel
            | none =>
              simp only [if_pos hne, hlk, if_pos hc, if_pos hmem, hsel]
              exact select_next_group_first_groups st
          · simp only [if_pos hne, hlk, if_pos hc, if_neg hmem]
            exact select_next_group_first_groups st
        · simp only [if_pos hne, hlk, if_neg hc]
          exact select_next_group_first_groups st
    · simp only [if_neg hne]
      exact select_next_group_first_groups st

theorem lookup_set_group (gs : List (List Char × List (List Char)))
    (gid : List Char) (fs2 : List (List Char)) (h : gs.lookup gid ≠ none) :
    (gs.map (fun q => if q.1 = gid then (q.1, fs2) else q)).lookup gid
      = some fs2 := by
  induction gs with
  | nil => simp [List.lookup] at h
  | cons q rest ih =>
    obtain ⟨k, v⟩ := q
    by_cases hk : k = gid
    · subst hk
      simp only [List.map_cons]
      simp [List.lookup]
    · have hbeq : (gid == k) = false :=
        beq_eq_false_iff_ne.mpr (fun he => hk he.symm)
      have h2 : rest.lookup gid ≠ none := by
        simpa [List.lookup, hbeq] using h
      simp only [List.map_cons]
      rw [if_neg hk]
      simp [List.lookup, hbeq, ih h2]

theorem lookup_filter_out (gs : List (List Char × List (List Char)))
    (gid : List Char) :
    (gs.filter (fun q => q.1 != gid)).lookup gid = none := by
  induction gs with
  | nil => rfl
  | cons q rest ih =>
    obtain ⟨k, v⟩ := q
    by_cases hk : k = gid
    · subst hk
      simp [List.filter_cons, ih]
    · have hbeq : (gid == k) = false :=
        beq_eq_false_iff_ne.mpr (fun he => hk he.symm)
      have hbne : (k != gid) = true := bne_iff_ne.mpr hk
      simp [List.filter_cons, hbne, List.lookup, hbeq, ih]

theorem getD_mem {α : Type} (l : List α) (n : ℕ) (d : α) (h : n < l.length) :
    l.getD n d ∈ l := by
  rw [List.getD_eq_getElem?_getD, List.getElem?_eq_getElem h]
  exact List.getElem_mem h

theorem getD_findIdx_self (l : List (List Char)) (a d : List Char)
    (h : a ∈ l) :
    l.getD (l.findIdx (fun x => x == a)) d = a := by
  induction l with
  | nil => cases h
  | cons b t ih =>
    by_cases hb : (b == a) = true
    · simp only [List.findIdx_cons, hb, cond_true, List.getD_cons_zero]
      exact eq_of_beq hb
    · have hb2 : (b == a) = false := by
        revert hb; cases b == a <;> simp
      have hmem : a ∈ t := by
        rcases List.mem_cons.mp h with rfl | hm
        · exact absurd (by simp) hb
        · exact hm
      simp only [List.findIdx_cons, hb2, cond_false, List.getD_cons_succ]
      exact ih hmem

/-- In-group reselection of `select_next_image_after_removal` (image_list.py
lines 539–551): with a nonempty current group, a nonnegative in-group
index, and the clamped-index file present in `image_files` under its
group's id, the selection succeeds and the cursor lands on that file. -/
theorem select_in_group (st : ImageList) (inIdx : ℤ) (gid : List Char)
    (remaining : List (List Char))
    (hgid : st.current_group_id = some gid) (hne : gid ≠ [])
    (hlk : st.groups.lookup gid = some remaining)
    (hrem : remaining ≠ []) (hidx : 0 ≤ inIdx)
    (hmem : remaining.getD (min inIdx.toNat (remaining.length - 1)) []
      ∈ st.image_files)
    (hparse : parse_image_id
      (remaining.getD (min inIdx.toNat (remaining.length - 1)) []) = some gid) :
    (select_next_image_after_removal st inIdx).2 = true
    ∧ (select_next_image_after_removal st inIdx).1.current_group_id = some gid
    ∧ (select_next_image_after_removal st inIdx).1.image_files = st.image_files
    ∧ (select_next_image_after_removal st inIdx).1.current_image_idx
        = (st.image_files.findIdx
            (fun x => x == remaining.getD (min inIdx.toNat (remaining.length - 1)) []) : ℤ) := by
  have hlen : 0 < remaining.length := by
    cases remaining
    · exact absurd rfl hrem
    · simp
  have hnidx : min inIdx.toNat (remaining.length - 1) < remaining.length :=
    Nat.lt_of_le_of_lt (Nat.min_le_right _ _) (by omega)
  have hmemrem : remaining.getD (min inIdx.toNat (remaining.length - 1)) []
      ∈ remaining := getD_mem _ _ _ hnidx
  have hsel : selectByPath st
      (remaining.getD (min inIdx.toNat (remaining.length - 1)) [])
      = some { st with
          current_group_id := some gid
          current_group_index :=
            if gid ∈ sortedKeys st.groups then
              ((sortedKeys st.groups).findIdx (fun x => x == gid) : ℤ)
            else st.current_group_index
          current_image_idx :=
            (st.image_files.findIdx
              (fun x => x == remaining.getD (min inIdx.toNat (remaining.length - 1)) []) : ℤ) } := by
    unfold selectByPath
    simp only [hparse, hlk, if_pos hmemrem, if_pos hmem]
  unfold select_next_image_after_removal
  simp only [hgid, if_pos hne, hlk, if_pos (And.intro hrem hidx), if_pos hmem,
    hsel]
  refine ⟨?_, ?_, ?_, ?_⟩ <;> trivial

/-- Next-group selection of `select_next_group_first_image` (image_list.py
lines 559–602): with a nonempty sorted key list, a nonnegative stored group
index, and the first file of the group at the clamped position present in
`image_files` under its own id, the selection succeeds and the cursor lands
on that file. -/
theorem select_first_of_group (st : ImageList) (gid2 f : List Char)
    (rest2 : List (List Char))
    (hids : sortedKeys st.groups ≠ [])
    (hcgi : 0 ≤ st.current_group_index)
    (hgid2 : (sortedKeys st.groups).getD
        (if st.current_group_index < ((sortedKeys st.groups).length : ℤ)
         then st.current_group_index.toNat
         else (sortedKeys st.groups).length - 1) [] = gid2)
    (hlk : st.groups.lookup gid2 = some (f :: rest2))
    (hmem : f ∈ st.image_files)
    (hparse : parse_image_id f = some gid2) :
    (select_next_group_first_image st).2 = true
    ∧ (select_next_group_first_image st).1.current_group_id = some gid2
    ∧ (select_next_group_first_image st).1.image_files = st.image_files
    ∧ (select_next_group_first_image st).1.current_image_idx
        = (st.image_files.findIdx (fun x => x == f) : ℤ) := by
  have hsel : selectByPath st f
      = some { st with
          current_group_id := some gid2
          current_group_index :=
            if gid2 ∈ sortedKeys st.groups then
              ((sortedKeys st.groups).findIdx (fun x => x == gid2) : ℤ)
            else st.current_group_index
          current_image_idx :=
            (st.image_files.findIdx (fun x => x == f) : ℤ) } := by
    unfold selectByPath
    simp only [hparse, hlk, if_pos (List.mem_cons_self f rest2), if_pos hmem]
  unfold select_next_group_first_image
  simp only [if_neg hids, if_pos hcgi, hgid2, hlk, if_pos hmem, hsel]
  refine ⟨?_, ?_, ?_, ?_⟩ <;> trivial

/-- The loaded catalog for C8's designated scenario:
`A_v1.jpg, A_v2.jpg, B_v1.jpg` grouped by id. -/
def scenarioLoaded : ImageList :=
  load_images_by_id ["A_v1.jpg".data, "A_v2.jpg".data, "B_v1.jpg".data]

/-- The scenario catalog with `A_v2.jpg` selected. -/
def scenarioSelected : ImageList :=
  (selectByPath scenarioLoaded "A_v2.jpg".data).getD scenarioLoaded

/-- The scenario catalog after removing `A_v2.jpg`. -/
def scenarioAfterFirst : ImageList × Bool :=
  remove_current_image scenarioSelected "A_v2.jpg".data

/-- The scenario catalog after then removing `A_v1.jpg`. -/
def scenarioAfterSecond : ImageList × Bool :=
  remove_current_image scenarioAfterFirst.1 "A_v1.jpg".data

/-- C8.  Grouped removal, for every consistent catalog state: (a) removing
a member of the current group leaves the group entry present with exactly
the remaining files when others remain; (b) removing the sole remaining
member deletes the group entry; (c) when the group survives, the removal
reports success and the auto-selected next item is the file at the removed
item's in-group index clamped to the shrunken group — the hypotheses that
this file lies in `image_files` minus the removed one and parses to the
group's id are the widget's standing invariants (group members appear in
`image_files` and carry their group's id); (d) when the group was deleted,
the auto-selected item is the first file of the group now occupying the
removed group's clamped sorted position; and the designated
`A_v1/A_v2/B_v1` scenario behaves exactly as the claim says. -/
theorem grouped_removal (st : ImageList) (p gid : List Char)
    (fs : List (List Char))
    (hgid : st.current_group_id = some gid) (hne : gid ≠ [])
    (hlook : st.groups.lookup gid = some fs) (hp : p ∈ fs) :
    ((fs.erase p ≠ [] →
      (remove_current_image st p).1.groups.lookup gid = some (fs.erase p))
    ∧ (fs.erase p = [] →
      (remove_current_image st p).1.groups.lookup gid = none)
    ∧ (fs.erase p ≠ [] →
      p ∈ st.image_files →
      (fs.erase p).getD
          (min (fs.findIdx (fun x => x == p)) ((fs.erase p).length - 1)) []
        ∈ st.image_files.erase p →
      parse_image_id ((fs.erase p).getD
          (min (fs.findIdx (fun x => x == p)) ((fs.erase p).length - 1)) [])
        = some gid →
      (remove_current_image st p).2 = true
      ∧ (remove_current_image st p).1.current_group_id = some gid
      ∧ (remove_current_image st p).1.image_files.getD
          (remove_current_image st p).1.current_image_idx.toNat []
        = (fs.erase p).getD
            (min (fs.findIdx (fun x => x == p)) ((fs.erase p).length - 1)) [])
    ∧ (∀ (gid2 f : List Char) (rest2 : List (List Char)),
      fs.erase p = [] →
      p ∈ st.image_files →
      0 ≤ st.current_group_index →
      sortedKeys (st.groups.filter (fun q => q.1 != gid)) ≠ [] →
      (sortedKeys (st.groups.filter (fun q => q.1 != gid))).getD
        (if st.current_group_index
            < ((sortedKeys (st.groups.filter (fun q => q.1 != gid))).length : ℤ)
         then st.current_group_index.toNat
         else (sortedKeys (st.groups.filter (fun q => q.1 != gid))).length - 1) []
        = gid2 →
      (st.groups.filter (fun q => q.1 != gid)).lookup gid2 = some (f :: rest2) →
      f ∈ st.image_files.erase p →
      parse_image_id f = some gid2 →
      (remove_current_image st p).2 = true
      ∧ (remove_current_image st p).1.current_group_id = some gid2
      ∧ (remove_current_image st p).1.image_files.getD
          (remove_current_image st p).1.current_image_idx.toNat [] = f))
    ∧ (scenarioAfterFirst.1.groups.lookup "A".data = some ["A_v1.jpg".data]
      ∧ scenarioAfterFirst.2 = true
      ∧ scenarioAfterFirst.1.current_group_id = some "A".data
      ∧ scenarioAfterFirst.1.image_files.getD
          scenarioAfterFirst.1.current_image_idx.toNat [] = "A_v1.jpg".data)
    ∧ (scenarioAfterSecond.1.groups.lookup "A".data = none
      ∧ scenarioAfterSecond.2 = true
      ∧ scenarioAfterSecond.1.current_group_id = some "B".data
      ∧ scenarioAfterSecond.1.image_files.getD
          scenarioAfterSecond.1.current_image_idx.toNat [] = "B_v1.jpg".data) := by
  refine ⟨⟨?_, ?_, ?_, ?_⟩, by decide, by decide⟩
  · intro herase
    unfold remove_current_image
    rw [select_next_after_removal_groups]
    simp only [hgid, if_pos hne, hlook, if_pos hp, if_neg herase]
    exact lookup_set_group st.groups gid (fs.erase p)
      (by rw [hlook]; intro h; cases h)
  · intro herase
    unfold remove_current_image
    rw [select_next_after_removal_groups]
    simp only [hgid, if_pos hne, hlook, if_pos hp, herase, if_pos rfl]
    exact lookup_filter_out st.groups gid
  · intro herase hpf hmemf hparse
    have hres : remove_current_image st p
        = select_next_image_after_removal
            { st with
              image_files := st.image_files.erase p
              groups := st.groups.map
                (fun q => if q.1 = gid then (q.1, fs.erase p) else q)
              current_group_id := some gid }
            ((fs.findIdx (fun x => x == p) : ℤ)) := by
      unfold remove_current_image
      simp only [hgid, if_pos hne, hlook, if_pos hp, if_pos hpf, if_neg herase]
    have hlk2 : (st.groups.map
        (fun q => if q.1 = gid then (q.1, fs.erase p) else q)).lookup gid
        = some (fs.erase p) :=
      lookup_set_group st.groups gid (fs.erase p)
        (by rw [hlook]; intro h; cases h)
    have hm2 : (fs.erase p).getD
        (min ((fs.findIdx (fun x => x == p) : ℤ)).toNat ((fs.erase p).length - 1)) []
        ∈ st.image_files.erase p := by
      simpa using hmemf
    have hp2 : parse_image_id ((fs.erase p).getD
        (min ((fs.findIdx (fun x => x == p) : ℤ)).toNat ((fs.erase p).length - 1)) [])
        = some gid := by
      simpa using hparse
    obtain ⟨ht, hcg, hfiles, hidxeq⟩ :=
      select_in_group
        { st with
          image_files := st.image_files.erase p
          groups := st.groups.map
            (fun q => if q.1 = gid then (q.1, fs.erase p) else q)
          current_group_id := some gid }
        ((fs.findIdx (fun x => x == p) : ℤ)) gid (fs.erase p)
        rfl hne hlk2 herase (Int.natCast_nonneg _) hm2 hp2
    rw [hres]
    refine ⟨ht, hcg, ?_⟩
    rw [hfiles, hidxeq]
    simp only [Int.toNat_natCast]
    exact getD_findIdx_self _ _ _ (by simpa using hmemf)
  · intro gid2 f rest2 herase0 hpf hcgi hids hgid2 hlk2 hmemf hparse
    have hres : remove_current_image st p
        = select_next_group_first_image
            { st with
              image_files := st.image_files.erase p
              groups := st.groups.filter (fun q => q.1 != gid)
              current_group_id := none } := by
      unfold remove_current_image
      simp only [hgid, if_pos hne, hlook, if_pos hp, if_pos hpf,
        if_pos herase0]
      rfl
    obtain ⟨ht, hcg, hfiles, hidxeq⟩ :=
      select_first_of_group
        { st with
          image_files := st.image_files.erase p
          groups := st.groups.filter (fun q => q.1 != gid)
          current_group_id := none }
        gid2 f rest2 hids hcgi hgid2 hlk2 hmemf hparse
    rw [hres]
    refine ⟨ht, hcg, ?_⟩
    rw [hfiles, hidxeq]
    simp only [Int.toNat_natCast]
    exact getD_findIdx_self _ _ _ hmemf

/-- The two-file single-group catalog used to witness C8's general
parts. -/
def wScenState : ImageList :=
  ⟨["x_v1.jpg".data, "x_v2.jpg".data],
   [("x".data, ["x_v1.jpg".data, "x_v2.jpg".data])],
   some "x".data, 0, 0⟩

/-- Witness for C8 at a concrete input: removing the first file of a
two-file group keeps the group with the second file, reports success, and
auto-selects that second file. -/
theorem grouped_removal_witness :
    (remove_current_image wScenState "x_v1.jpg".data).1.groups.lookup "x".data
      = some ["x_v2.jpg".data]
    ∧ (remove_current_image wScenState "x_v1.jpg".data).2 = true
    ∧ (remove_current_image wScenState "x_v1.jpg".data).1.image_files.getD
        (remove_current_image wScenState "x_v1.jpg".data).1.current_image_idx.toNat []
      = "x_v2.jpg".data := by
  have h := grouped_removal wScenState "x_v1.jpg".data "x".data
    ["x_v1.jpg".data, "x_v2.jpg".data] rfl (by decide) (by decide) (by decide)
  have hc := h.1.2.2.1 (by decide) (by decide) (by decide) (by decide)
  exact ⟨h.1.1 (by decide), hc.1, hc.2.2⟩

/-! ## Filesystem model and move-to-target (`utils/file_utils.py`,
`models/yolo_label.py`)

Paths are strings joined with `"/"`; directories are implicit
(`os.makedirs` is the identity) and copies/writes always succeed, so the
I/O-failure branches of the code are unreachable in the model but kept in
place. -/

/-- File data: an opaque image blob, or a text file as token lines. -/
inductive FData where
  | image (blob : ℕ)
  | text (lines : List (List Tok))
deriving DecidableEq, Repr

/-- Filesystem state: an association of paths to files; a later `put`
shadows earlier entries. -/
def FS : Type := List (String × FData)

/-- `os.path.exists` / open-for-read: the current file at `p`. -/
def FS.get (fs : FS) (p : String) : Option FData :=
  fs.lookup p

/-- Writing (or copying to) `p`. -/
def FS.put (fs : FS) (p : String) (d : FData) : FS :=
  (p, d) :: fs

/-- `os.unlink p`. -/
def FS.del (fs : FS) (p : String) : FS :=
  fs.filter (fun q => q.1 != p)

/-- `read_label_file` against the filesystem: a missing file reads as `[]`,
and opening a binary file as text raises inside the `try`, which the
handler turns into `[]` as well. -/
def readFs (fs : FS) (p : String) : List (List ℚ) :=
  match fs.get p with
  | some (FData.text lines) => read_label_lines lines
  | some (FData.image _) => []
  | none => []

/-- `os.path.join a b`. -/
def pathJoin (a b : String) : String :=
  a ++ "/" ++ b

/-- The characters after the last occurrence of `sep`. -/
def afterLast (sep : Char) (s : List Char) : List Char :=
  (s.reverse.takeWhile (fun c => c ≠ sep)).reverse

/-- `os.path.basename`. -/
def basenameStr (p : String) : String :=
  String.mk (afterLast '/' p.data)

/-- `os.path.splitext(name)[0]`: the name up to its last dot. -/
def splitextBase (name : List Char) : List Char :=
  if '.' ∈ name then ((name.reverse.dropWhile (fun c => c ≠ '.')).drop 1).reverse
  else name

/-- The per-class target directory of `move_files_to_target` (file_utils.py
lines 151–158): `target_dir/<ship type name or 未知类型_id>`, or
`target_dir` itself when no `ship_type_id` is given.  `shipTypes` models
`config.get_ship_types()` keyed by the numeric id. -/
def resolvedTargetDir (shipTypes : ℤ → Option String) (target_dir : String)
    (ship_type_id : Option ℤ) : String :=
  match ship_type_id with
  | some id => pathJoin target_dir ((shipTypes id).getD ("未知类型_" ++ toString id))
  | none => target_dir

/-- Whether `label_file` is treated as a scratch file (file_utils.py line
175): `'temp' in label_file and '.txt' in label_file`. -/
def isTempLabel (label_file : String) : Bool :=
  hasSub label_file.data "temp".data && hasSub label_file.data ".txt".data

/-- The destination label path of `move_files_to_target` (file_utils.py
lines 174–180): under `.../labels/`, renamed from the image's base name for
a scratch source, kept as-is otherwise. -/
def targetLabelPathOf (shipTypes : ℤ → Option String)
    (image_file label_file target_dir : String) (ship_type_id : Option ℤ) :
    String :=
  pathJoin (pathJoin (resolvedTargetDir shipTypes target_dir ship_type_id) "labels")
    (if isTempLabel label_file then
      String.mk (splitextBase (basenameStr image_file).data) ++ ".txt"
    else basenameStr label_file)

/-- The destination image path (file_utils.py line 172). -/
def targetImgPathOf (shipTypes : ℤ → Option String)
    (image_file target_dir : String) (ship_type_id : Option ℤ) : String :=
  pathJoin (pathJoin (resolvedTargetDir shipTypes target_dir ship_type_id) "images")
    (basenameStr image_file)

/-- The per-index class-id verification loop (file_utils.py lines 230–233):
the first index where `int(target[0]) ≠ int(source[0])`, with both ids. -/
def classMismatch : List (List ℚ) → List (List ℚ) → ℕ → Option (ℕ × ℤ × ℤ)
  | s :: ss, t :: ts, i =>
    if pyint (t.getD 0 0) ≠ pyint (s.getD 0 0) then
      some (i, pyint (s.getD 0 0), pyint (t.getD 0 0))
    else classMismatch ss ts (i + 1)
  | _, _, _ => none

/-- `move_files_to_target` (file_utils.py lines 126–237). -/
def move_files_to_target (fs : FS) (shipTypes : ℤ → Option String)
    (image_file label_file target_dir : String) (ship_type_id : Option ℤ) :
    FS × Bool × String :=
  if (fs.get image_file).isNone then (fs, false, "源图像文件不存在")
  else if (fs.get label_file).isNone then (fs, false, "源标签文件不存在")
  else
    let source_labels := readFs fs label_file
    if source_labels = [] then (fs, false, "标签文件为空或读取失败")
    else
      let target_img_path := targetImgPathOf shipTypes image_file target_dir ship_type_id
      let target_label_path :=
        targetLabelPathOf shipTypes image_file label_file target_dir ship_type_id
      let fs1 := fs.put target_img_path ((fs.get image_file).getD (FData.image 0))
      let fs2 :=
        if isTempLabel label_file then
          fs1.put target_label_path (FData.text (write_label_lines source_labels))
        else
          fs1.put target_label_path ((fs.get label_file).getD (FData.text []))
      let target_labels := readFs fs2 target_label_path
      if target_labels = [] then (fs2, false, "目标标签文件验证失败")
      else if target_labels.length ≠ source_labels.length then
        (fs2, false, "目标标签文件内容验证失败")
      else
        match classMismatch source_labels target_labels 0 with
        | some (i, si, ti) =>
          (fs2, false,
           "标签 " ++ toString i ++ " 类别ID不一致: 源=" ++ toString si
             ++ ", 目标=" ++ toString ti)
        | none => (fs2, true, "")

/-- `YoloLabel.move_to_target` (yolo_label.py lines 132–216): a dirty
record serialises its rows to a scratch file named from the image's base
name under the process temp directory, moves from there, and always removes
the scratch file afterwards; a clean record moves its label file
directly. -/
def YoloLabel.move_to_target (st : YoloLabel) (fs : FS)
    (shipTypes : ℤ → Option String) (target_dir tmpdir : String)
    (ship_type_id : Option ℤ) : FS × Bool × String :=
  match st.image_path, st.label_path with
  | some ip, some lp =>
    if (fs.get ip).isNone then (fs, false, "图像文件不存在: " ++ basenameStr ip)
    else if (fs.get lp).isNone then
      (fs, false, "标签文件不存在: " ++ basenameStr lp)
    else
      let temp_label_path :=
        pathJoin (pathJoin tmpdir "yolo_draw_temp")
          (String.mk (splitextBase (basenameStr ip).data) ++ "_temp.txt")
      if st.modified then
        let fs1 := fs.put temp_label_path (FData.text (write_label_lines st.labels))
        let r := move_files_to_target fs1 shipTypes ip temp_label_path
          target_dir ship_type_id
        (FS.del r.1 temp_label_path, r.2.1, r.2.2)
      else
        move_files_to_target fs shipTypes ip lp target_dir ship_type_id
  | _, _ => (fs, false, "图像或标签文件路径未设置")

theorem FS.get_put (fs : FS) (p : String) (d : FData) :
    (fs.put p d).get p = some d := by
  simp [FS.get, FS.put, List.lookup]

/-- C9.  `move_files_to_target` fails with the "label file empty or
unreadable" message whenever the resolved source label file parses to zero
rows, even though both the source image and the source label file exist,
and leaves the filesystem unchanged; a clean record with such a label file
can therefore never be moved. -/
theorem move_fails_on_empty_labels (fs : FS) (shipTypes : ℤ → Option String)
    (img lbl tdir tmp : String) (stid : Option ℤ)
    (himg : (fs.get img).isSome) (hlbl : (fs.get lbl).isSome)
    (hempty : readFs fs lbl = []) :
    move_files_to_target fs shipTypes img lbl tdir stid
      = (fs, false, "标签文件为空或读取失败")
    ∧ ∀ st : YoloLabel, st.image_path = some img → st.label_path = some lbl →
      st.modified = false →
      YoloLabel.move_to_target st fs shipTypes tdir tmp stid
        = (fs, false, "标签文件为空或读取失败") := by
  have himg2 : (fs.get img).isNone = false := by
    cases h : fs.get img
    · rw [h] at himg; cases himg
    · rfl
  have hlbl2 : (fs.get lbl).isNone = false := by
    cases h : fs.get lbl
    · rw [h] at hlbl; cases hlbl
    · rfl
  have hmain : move_files_to_target fs shipTypes img lbl tdir stid
      = (fs, false, "标签文件为空或读取失败") := by
    unfold move_files_to_target
    simp only [himg2, Bool.false_eq_true, if_false, hlbl2, hempty,
      eq_self_iff_true, if_true]
  refine ⟨hmain, ?_⟩
  intro st hip hlp hmod
  unfold YoloLabel.move_to_target
  simp only [hip, hlp, himg2, hlbl2, hmod, Bool.false_eq_true, if_false]
  exact hmain

/-- Witness for C9 at a concrete input: an existing image and an existing
but empty label file. -/
theorem move_fails_on_empty_labels_witness :
    move_files_to_target
      [("d/i.jpg", FData.image 1), ("d/l.txt", FData.text [])]
      (fun _ => none) "d/i.jpg" "d/l.txt" "T" none
      = ([("d/i.jpg", FData.image 1), ("d/l.txt", FData.text [])],
         false, "标签文件为空或读取失败") :=
  (move_fails_on_empty_labels
    [("d/i.jpg", FData.image 1), ("d/l.txt", FData.text [])]
    (fun _ => none) "d/i.jpg" "d/l.txt" "T" "/tmp" none
    (by decide) (by decide) (by decide)).1

/-- The filesystem of C3's designated scenario: one image and a label file
holding the single row `0 0.5 0.5 0.2 0.2`. -/
def mvScenarioFS : FS :=
  [("src/images/img.jpg", FData.image 7),
   ("src/labels/img.txt",
    FData.text [[Tok.num 0, Tok.num (1/2), Tok.num (1/2),
                 Tok.num (1/5), Tok.num (1/5)]])]

/-- Class-id 0 mapped to name "Tanker". -/
def mvShip : ℤ → Option String :=
  fun i => if i = 0 then some "Tanker" else none

/-- The clean record for C3's scenario. -/
def mvRecord : YoloLabel :=
  ⟨some "src/images/img.jpg", some "src/labels/img.txt",
   [[0, 1/2, 1/2, 1/5, 1/5]], false⟩

/-- C3's scenario outcome. -/
def mvResult : FS × Bool × String :=
  YoloLabel.move_to_target mvRecord mvScenarioFS mvShip "T" "/tmp" (some 0)

/-- C3.  `move_to_target` declares success only if, after copying, the
destination label file exists at `<target>/<class name>/labels/<name>`, its
row count equals the source's, and every row's class id matches the
source's.  Concretely, moving the record with the single row
`[0, 0.5, 0.5, 0.2, 0.2]` to `T` with class 0 named "Tanker" succeeds and
produces `T/Tanker/images/img.jpg` and `T/Tanker/labels/img.txt` holding
exactly the line `0 0.5 0.5 0.2 0.2`. -/
theorem move_to_target_verified :
    (∀ (fs : FS) (shipTypes : ℤ → Option String) (img lbl tdir : String)
        (stid : Option ℤ),
      (move_files_to_target fs shipTypes img lbl tdir stid).2.1 = true →
        ((move_files_to_target fs shipTypes img lbl tdir stid).1.get
            (targetLabelPathOf shipTypes img lbl tdir stid)).isSome
        ∧ (readFs (move_files_to_target fs shipTypes img lbl tdir stid).1
              (targetLabelPathOf shipTypes img lbl tdir stid)).length
            = (readFs fs lbl).length
        ∧ classMismatch (readFs fs lbl)
            (readFs (move_files_to_target fs shipTypes img lbl tdir stid).1
              (targetLabelPathOf shipTypes img lbl tdir stid)) 0 = none)
    ∧ mvResult.2.1 = true
    ∧ mvResult.1.get "T/Tanker/images/img.jpg" = some (FData.image 7)
    ∧ mvResult.1.get "T/Tanker/labels/img.txt"
        = some (FData.text [[Tok.num 0, Tok.num (1/2), Tok.num (1/2),
                             Tok.num (1/5), Tok.num (1/5)]]) := by
  refine ⟨?_, by decide, by decide, by decide⟩
  intro fs shipTypes img lbl tdir stid hok
  unfold move_files_to_target at hok ⊢
  by_cases h1 : (fs.get img).isNone
  · simp [h1] at hok
  · by_cases h2 : (fs.get lbl).isNone
    · simp [h1, h2] at hok
    · by_cases h3 : readFs fs lbl = []
      · simp [h1, h2, h3] at hok
      · simp only [h1, h2, h3, Bool.false_eq_true, if_false, if_neg h3] at hok ⊢
        set tlp := targetLabelPathOf shipTypes img lbl tdir stid with htlp
        set fs2 :=
          if isTempLabel lbl then
            (fs.put (targetImgPathOf shipTypes img tdir stid)
              ((fs.get img).getD (FData.image 0))).put tlp
              (FData.text (write_label_lines (readFs fs lbl)))
          else
            (fs.put (targetImgPathOf shipTypes img tdir stid)
              ((fs.get img).getD (FData.image 0))).put tlp
              ((fs.get lbl).getD (FData.text [])) with hfs2
        by_cases h4 : readFs fs2 tlp = []
        · simp [h4] at hok
        · by_cases h5 : (readFs fs2 tlp).length ≠ (readFs fs lbl).length
          · simp [h4, h5] at hok
          · cases hcm : classMismatch (readFs fs lbl) (readFs fs2 tlp) 0 with
            | some p =>
              obtain ⟨i, si, ti⟩ := p
              simp [h4, h5, hcm] at hok
            | none =>
              simp only [h4, h5, hcm, Bool.false_eq_true, if_false] at hok ⊢
              refine ⟨?_, by omega, trivial⟩
              have : fs2.get tlp ≠ none := by
                intro hnone
                apply h4
                unfold readFs
                rw [hnone]
              cases hget : fs2.get tlp
              · exact absurd hget this
              · rfl

/-- Witness for C3 at a concrete input: the success postcondition applied
to the scenario's own successful inner move. -/
theorem move_to_target_verified_witness :
    (readFs
        (move_files_to_target mvScenarioFS mvShip "src/images/img.jpg"
          "src/labels/img.txt" "T" (some 0)).1
        (targetLabelPathOf mvShip "src/images/img.jpg" "src/labels/img.txt"
          "T" (some 0))).length
      = (readFs mvScenarioFS "src/labels/img.txt").length :=
  (move_to_target_verified.1 mvScenarioFS mvShip "src/images/img.jpg"
    "src/labels/img.txt" "T" (some 0) (by decide)).2.1

end YoloDraw
